import Mathlib

/-!
Verification of the Mastermind-style game rule engine described by the
repository's specification.  The repository ships `app.py` (the application
wiring and event registration, which we embed directly) together with
presentation code; the rule-engine modules (`game/state.py`, `game/logic.py`,
`events.py`) are referenced by `app.py` but their sources are not present, so
the corresponding definitions below are modelled from the specification, as
marked in their doc comments.

Conventions of the embedding:
* digits are `Nat`; the empty-cell sentinel is `0`; valid digits lie in
  `[1, numDigits]`;
* the board is a list of `numRows` rows, each a list of `numCols` cells;
* event publication is modelled by operations returning the list of
  semantic events they emit, in emission order.
-/

namespace Mastermind

/-- Number of guess rows on the board; `app.py` builds 12 rows of model
objects (`for row in range(12)`). -/
def numRows : Nat := 12

/-- Number of columns (cells per row) in the reference configuration. -/
def numCols : Nat := 4

/-- Number of distinct digit values; `app.py` binds exactly the keys 1..6. -/
def numDigits : Nat := 6

/-- Modelled from the spec: step 1 of the feedback scoring algorithm.
`exact` is the count of positions where guess and answer agree. -/
def exactCount (guess answer : List Nat) : Nat :=
  ((guess.zip answer).filter (fun p => p.1 == p.2)).length

/-- Modelled from the spec: the multiset of guess digits at the non-exact
positions (positions already counted as exact are excluded). -/
def unmatchedGuess (guess answer : List Nat) : List Nat :=
  ((guess.zip answer).filter (fun p => p.1 != p.2)).map Prod.fst

/-- Modelled from the spec: the multiset of answer digits at the non-exact
positions. -/
def unmatchedAnswer (guess answer : List Nat) : List Nat :=
  ((guess.zip answer).filter (fun p => p.1 != p.2)).map Prod.snd

/-- Modelled from the spec: step 2 of the feedback scoring algorithm.
The sum over each distinct digit value of the minimum of its multiplicities
in the unmatched guess and unmatched answer is exactly the cardinality of
the multiset intersection of the two unmatched collections. -/
def partCount (guess answer : List Nat) : Nat :=
  ((unmatchedGuess guess answer : Multiset Nat) ∩
    (unmatchedAnswer guess answer : Multiset Nat)).card

/-- Feedback for a committed row: the pair `(exact, partial-credit)`. -/
def score (guess answer : List Nat) : Nat × Nat :=
  (exactCount guess answer, partCount guess answer)

/-- Game status: in progress, won, or lost (terminal except for reset). -/
inductive GameStatus where
  | inProgress
  | won
  | lost
deriving DecidableEq, Repr

/-- Semantic events published through the event bus (`Events` in the code).
`app.py` subscribes to `GAME_WON`, `GAME_OVER`, `GAME_RESET`,
`AFTER_GAME_RESET` and `CHEATER_CHECK`. -/
inductive GameEvent where
  | rowCommitted (rowIndex exact part : Nat)
  | gameWon
  | gameOver
  | gameReset
  | afterGameReset
  | cheaterCheck
deriving DecidableEq, Repr

/-- Modelled from the spec: the `GameState` owned by `game/state.py`
(not in src/).  Digit `0` is the empty-cell sentinel. -/
structure GameState where
  answer : List Nat
  board : List (List Nat)
  feedbacks : List (Option (Nat × Nat))
  activeRow : Nat
  activeCol : Nat
  status : GameStatus
  inputEnabled : Bool
deriving DecidableEq, Repr

/-- An all-empty row of the board. -/
def emptyRow : List Nat := List.replicate numCols 0

/-- Modelled from the spec: `reset()` of `game/state.py` (not in src/):
install a freshly generated answer (passed as a parameter here, since
randomness is outside the embedding), clear the board, move the cursor to
`(0, 0)`, set status `InProgress` and enable input.  Callable at any time;
it does not depend on the prior state. -/
def reset (ans : List Nat) : GameState :=
  { answer := ans
    board := List.replicate numRows emptyRow
    feedbacks := List.replicate numRows none
    activeRow := 0
    activeCol := 0
    status := .inProgress
    inputEnabled := true }

/-- A digit is valid when it lies in `[1, numDigits]`. -/
def validDigit (d : Nat) : Bool := decide (1 ≤ d ∧ d ≤ numDigits)

/-- Modelled from the spec: `setDigit`/`set_answer_digit` (`game/state.py`
and `game/logic.py`, not in src/): write the digit at the cursor cell, only
when input is enabled and the game is in progress; otherwise a no-op.  Does
not move the cursor. -/
def setDigit (v : Nat) (s : GameState) : GameState :=
  if s.inputEnabled = true ∧ s.status = .inProgress then
    { s with board :=
        s.board.set s.activeRow ((s.board.getD s.activeRow emptyRow).set s.activeCol v) }
  else s

/-- Modelled from the spec: `advanceCursorColumn`/`change_active_index`
(`game/state.py` and `game/logic.py`, not in src/): move the cursor to the
next column of the active row, wrapping cyclically; a no-op when input is
disabled. -/
def advanceCursorColumn (s : GameState) : GameState :=
  if s.inputEnabled = true then { s with activeCol := (s.activeCol + 1) % numCols } else s

/-- The cells of the active row. -/
def activeRowCells (s : GameState) : List Nat := s.board.getD s.activeRow emptyRow

/-- The active row is complete when every cell holds a valid digit. -/
def rowComplete (s : GameState) : Bool := (activeRowCells s).all validDigit

/-- Modelled from the spec: `checkRow`/`commitActiveRow` (`game/logic.py`
and `game/state.py`, not in src/), together with the event handlers that
`app.py` registers (`GAME_WON`/`GAME_OVER` → `state.disable_input()`).
A no-op emitting no events unless the game is in progress and the active
row is complete.  On commit it scores the row, records the feedback and
publishes `RowCommitted` followed by `GameWon` (all exact), or `GameOver`
(last row, not all exact), or nothing further (advance to the next row,
cursor at column 0).  The win/loss branches also leave input disabled,
reflecting the registered handlers. -/
def checkRow (s : GameState) : GameState × List GameEvent :=
  if s.status = .inProgress ∧ rowComplete s = true then
    let row := activeRowCells s
    let e := exactCount row s.answer
    let p := partCount row s.answer
    let fbs := s.feedbacks.set s.activeRow (some (e, p))
    if e = numCols then
      ({ s with feedbacks := fbs, status := .won, inputEnabled := false },
        [.rowCommitted s.activeRow e p, .gameWon])
    else if s.activeRow = numRows - 1 then
      ({ s with feedbacks := fbs, status := .lost, inputEnabled := false },
        [.rowCommitted s.activeRow e p, .gameOver])
    else
      ({ s with feedbacks := fbs, activeRow := s.activeRow + 1, activeCol := 0 },
        [.rowCommitted s.activeRow e p])
  else (s, [])

/-- Modelled from the spec: `disable_input` of `game/state.py` (not in
src/), as invoked by the `CHEATER_CHECK` handler registered in `app.py`. -/
def disableInput (s : GameState) : GameState := { s with inputEnabled := false }

/-- States reachable from a fresh game through the rule-engine operations. -/
inductive Reachable : GameState → Prop where
  | reset (ans : List Nat) : Reachable (reset ans)
  | setDigit (v : Nat) {s : GameState} : Reachable s → Reachable (setDigit v s)
  | advance {s : GameState} : Reachable s → Reachable (advanceCursorColumn s)
  | check {s : GameState} : Reachable s → Reachable (checkRow s).1
  | disable {s : GameState} : Reachable s → Reachable (disableInput s)

/-- The handler a `KEYDOWN` registration in `App.register_events` invokes. -/
inductive Handler where
  | changeActiveIndex
  | checkRowKey
  | toggleControls
  | setAnswerDigit (digit : Nat)
  | cheaterCheck
  | resetKey
  | quitKey
deriving DecidableEq, Repr

/-- The pygame key codes bound to digit selection in `App.register_events`:
`keys_to_bind = [pygame.K_1, ..., pygame.K_6]` (ASCII codes 49..54). -/
def keysToBind : List Nat := [49, 50, 51, 52, 53, 54]

/-- The `KEYDOWN` registrations made by `App.register_events` (src/app.py
lines 75-147), in registration order, as pairs of the key-code condition and
the handler invoked.  Key codes are the pygame constants: K_SPACE = 32,
K_RETURN = 13, K_TAB = 9, K_1..K_6 = 49..54, K_o = 111, K_r = 114,
K_ESCAPE = 27.  Digit registrations carry `data={'digit': index + 1}`. -/
def keydownRegistrations : List (Nat × Handler) :=
  [(32, .changeActiveIndex), (13, .checkRowKey), (9, .toggleControls)]
    ++ keysToBind.enum.map (fun p => (p.2, .setAnswerDigit (p.1 + 1)))
    ++ [(111, .cheaterCheck), (114, .resetKey), (27, .quitKey)]

/-- The digit payloads that the key bindings can deliver to
`logic.set_answer_digit`. -/
def digitPayloads : List Nat :=
  keydownRegistrations.filterMap (fun p =>
    match p.2 with
    | .setAnswerDigit d => some d
    | _ => none)

/-- Whether a handler mutates game state (everything registered on `KEYDOWN`
except the GUI-only controls-visibility toggle). -/
def gameMutating : Handler → Bool
  | .toggleControls => false
  | _ => true

/-- The key conditions of the game-state-mutating `KEYDOWN` registrations. -/
def mutatingKeys : List Nat :=
  (keydownRegistrations.filter (fun p => gameMutating p.2)).map Prod.fst

/-! ### Helper lemmas about the scoring algorithm -/

theorem partCount_le_unmatched (g a : List Nat) :
    partCount g a ≤ (unmatchedGuess g a).length := by
  have h := Multiset.card_le_card
    (Multiset.inter_le_left (unmatchedGuess g a : Multiset Nat) (unmatchedAnswer g a))
  simpa using h

theorem exactCount_add_partCount_le (g a : List Nat) (C : Nat)
    (hg : g.length = C) (ha : a.length = C) :
    exactCount g a + partCount g a ≤ C := by
  have hz : (g.zip a).length = C := by
    simp [List.length_zip, hg, ha]
  have hu : (unmatchedGuess g a).length
      = ((g.zip a).filter (fun p => !(p.1 == p.2))).length := by
    simp [unmatchedGuess, bne]
  have hsplit :=
    @List.length_eq_length_filter_add _ (g.zip a) (fun p : Nat × Nat => p.1 == p.2)
  have h1 := partCount_le_unmatched g a
  simp only [exactCount]
  omega

theorem exactCount_eq_iff (g a : List Nat) (h : g.length = a.length) :
    exactCount g a = g.length ↔ g = a := by
  induction g generalizing a with
  | nil =>
    cases a with
    | nil => simp [exactCount]
    | cons y ys => simp at h
  | cons x xs ih =>
    cases a with
    | nil => simp at h
    | cons y ys =>
      simp only [List.length_cons, Nat.succ.injEq] at h
      by_cases hxy : x = y
      · subst hxy
        simp only [exactCount, List.zip_cons_cons, List.filter_cons, beq_self_eq_true,
          List.length_cons] at *
        constructor
        · intro hlen
          have hxs := (ih ys h).mp (by simpa [exactCount] using Nat.succ_injective hlen)
          simp [hxs]
        · intro he
          have hxs : xs = ys := by injection he
          have := (ih ys h).mpr hxs
          simpa [exactCount] using congrArg Nat.succ this
      · constructor
        · intro hlen
          exfalso
          have hle : exactCount (x :: xs) (y :: ys) ≤ xs.length := by
            simp only [exactCount, List.zip_cons_cons, List.filter_cons]
            have hb : (x == y) = false := by simp [hxy]
            rw [hb]
            simp only [Bool.false_eq_true, if_false]
            calc (List.filter (fun p => p.1 == p.2) (xs.zip ys)).length
                ≤ (xs.zip ys).length := List.length_filter_le _ _
              _ ≤ xs.length := by rw [List.length_zip]; omega
          simp only [List.length_cons] at hlen
          omega
        · intro he
          exact absurd (by injection he) hxy

theorem zip_self_filter_ne (l : List Nat) :
    (l.zip l).filter (fun p => p.1 != p.2) = [] := by
  induction l with
  | nil => rfl
  | cons x xs ih => simp [List.filter_cons, ih]

theorem exactCount_self (l : List Nat) : exactCount l l = l.length :=
  (exactCount_eq_iff l l rfl).mpr rfl

theorem partCount_self (l : List Nat) : partCount l l = 0 := by
  simp [partCount, unmatchedGuess, unmatchedAnswer, zip_self_filter_ne]

/-! ### Helper lemmas about the state machine -/

theorem setDigit_status (v : Nat) (s : GameState) : (setDigit v s).status = s.status := by
  unfold setDigit; split <;> rfl

theorem setDigit_inputEnabled (v : Nat) (s : GameState) :
    (setDigit v s).inputEnabled = s.inputEnabled := by
  unfold setDigit; split <;> rfl

theorem advance_status (s : GameState) :
    (advanceCursorColumn s).status = s.status := by
  unfold advanceCursorColumn; split <;> rfl

theorem advance_inputEnabled (s : GameState) :
    (advanceCursorColumn s).inputEnabled = s.inputEnabled := by
  unfold advanceCursorColumn; split <;> rfl

theorem advance_activeRow (s : GameState) :
    (advanceCursorColumn s).activeRow = s.activeRow := by
  unfold advanceCursorColumn; split <;> rfl

/-- Invariant relating terminal status to the input gate: once the game is
no longer in progress, input is disabled (the `GAME_WON`/`GAME_OVER`
handlers registered in `app.py` disable input). -/
def StateInv (s : GameState) : Prop := s.status ≠ .inProgress → s.inputEnabled = false

theorem checkRow_inv {s : GameState} (h : StateInv s) : StateInv (checkRow s).1 := by
  unfold checkRow
  split
  · next hc =>
    simp only
    split
    · intro _; rfl
    · split
      · intro _; rfl
      · intro hst
        exact absurd hc.1 hst
  · exact h

theorem reachable_inv {s : GameState} (h : Reachable s) : StateInv s := by
  induction h with
  | reset ans => intro hst; exact absurd rfl hst
  | setDigit v _ ih =>
    intro hst
    rw [setDigit_inputEnabled]
    exact ih (by rwa [setDigit_status] at hst)
  | advance _ ih =>
    intro hst
    rw [advance_inputEnabled]
    exact ih (by rwa [advance_status] at hst)
  | check _ ih => exact checkRow_inv ih
  | disable _ ih => intro _; rfl

theorem setDigit_terminal_noop (v : Nat) {s : GameState}
    (ht : s.status ≠ .inProgress) : setDigit v s = s := by
  unfold setDigit
  split
  · next hc => exact absurd hc.2 ht
  · rfl

theorem advance_disabled_noop {s : GameState}
    (hi : s.inputEnabled = false) : advanceCursorColumn s = s := by
  unfold advanceCursorColumn
  split
  · next hc => rw [hi] at hc; exact absurd hc (by simp)
  · rfl

theorem checkRow_terminal_noop {s : GameState}
    (ht : s.status ≠ .inProgress) : checkRow s = (s, []) := by
  unfold checkRow
  split
  · next hc => exact absurd hc.1 ht
  · rfl

theorem advance_iterate {s : GameState} (h : s.inputEnabled = true) (k : Nat) :
    advanceCursorColumn^[k + 1] s = { s with activeCol := (s.activeCol + (k + 1)) % numCols } := by
  induction k with
  | zero =>
    show advanceCursorColumn s = _
    unfold advanceCursorColumn
    rw [if_pos h]
  | succ n ih =>
    rw [Function.iterate_succ_apply', ih]
    unfold advanceCursorColumn
    rw [if_pos (by exact h)]
    simp only [GameState.mk.injEq, and_true, true_and]
    rw [Nat.mod_add_mod]
    congr 1

/-- A concrete terminal game state: from a fresh game with answer
`[1, 1, 1, 1]`, fill row 0 with the answer and commit it, winning the
game. -/
def wonDemoState : GameState :=
  (checkRow (setDigit 1 (advanceCursorColumn (setDigit 1 (advanceCursorColumn
    (setDigit 1 (advanceCursorColumn (setDigit 1 (reset [1, 1, 1, 1]))))))))).1

theorem wonDemoState_reachable : Reachable wonDemoState :=
  Reachable.check (Reachable.setDigit 1 (Reachable.advance (Reachable.setDigit 1
    (Reachable.advance (Reachable.setDigit 1 (Reachable.advance
      (Reachable.setDigit 1 (Reachable.reset [1, 1, 1, 1]))))))))

/-! ### Claim theorems -/

/-- Claim C1: for every guess row and every answer, both of length `C` with
digits in `[1, numDigits]`, the scoring algorithm satisfies
`exact + partial ≤ C`, and `exact = C` holds iff the guess equals the
answer element-wise. -/
theorem scoring_bound_and_exact_iff_eq (C : Nat) (guess answer : List Nat)
    (hg : guess.length = C) (ha : answer.length = C)
    (hgd : ∀ d ∈ guess, 1 ≤ d ∧ d ≤ numDigits)
    (had : ∀ d ∈ answer, 1 ≤ d ∧ d ≤ numDigits) :
    exactCount guess answer + partCount guess answer ≤ C ∧
      (exactCount guess answer = C ↔ guess = answer) := by
  refine ⟨exactCount_add_partCount_le guess answer C hg ha, ?_⟩
  have h := exactCount_eq_iff guess answer (by rw [hg, ha])
  rwa [hg] at h

theorem scoring_bound_and_exact_iff_eq_witness :
    exactCount [4, 3, 2, 1] [1, 2, 3, 4] + partCount [4, 3, 2, 1] [1, 2, 3, 4] ≤ 4 ∧
      (exactCount [4, 3, 2, 1] [1, 2, 3, 4] = 4 ↔ [4, 3, 2, 1] = [1, 2, 3, 4]) :=
  scoring_bound_and_exact_iff_eq 4 [4, 3, 2, 1] [1, 2, 3, 4]
    (by decide) (by decide) (by decide) (by decide)

/-- Claim C2: for answer `[1, 1, 2, 3]` and guess `[1, 1, 1, 4]`, the
scoring algorithm returns exact = 2 and partial = 0: the two exact matches
consume both occurrences of digit 1 in the answer, so the third 1 in the
guess earns no partial credit. -/
theorem scoring_duplicate_handling :
    score [1, 1, 1, 4] [1, 1, 2, 3] = (2, 0) := by decide

/-- Claim C3: with 12 rows, committing the fully-filled row at index 11
whose feedback is not all-exact makes the game `Lost`, while committing
any fully-filled earlier row without all-exact feedback advances the
active row by one, resets the cursor to column 0 and stays `InProgress`. -/
theorem loss_boundary (s : GameState) (hst : s.status = .inProgress)
    (hc : rowComplete s = true)
    (hne : exactCount (activeRowCells s) s.answer ≠ numCols) :
    (s.activeRow = 11 → (checkRow s).1.status = .lost) ∧
      (s.activeRow < 11 →
        (checkRow s).1.status = .inProgress ∧
        (checkRow s).1.activeRow = s.activeRow + 1 ∧
        (checkRow s).1.activeCol = 0) := by
  unfold checkRow
  rw [if_pos ⟨hst, hc⟩]
  simp only
  rw [if_neg hne]
  constructor
  · intro h11
    rw [if_pos (show s.activeRow = numRows - 1 by rw [h11]; rfl)]
  · intro hlt
    rw [if_neg (show ¬ s.activeRow = numRows - 1 by
      intro hcon
      rw [hcon] at hlt
      exact absurd hlt (by decide))]
    exact ⟨hst, rfl, rfl⟩

/-- A concrete in-progress state with all 12 rows filled with `[1, 1, 1, 1]`
against answer `[1, 2, 3, 4]`, cursor on the last row. -/
def lastRowDemoState : GameState :=
  { answer := [1, 2, 3, 4]
    board := List.replicate numRows [1, 1, 1, 1]
    feedbacks := List.replicate numRows none
    activeRow := 11
    activeCol := 0
    status := .inProgress
    inputEnabled := true }

theorem loss_boundary_witness :
    (lastRowDemoState.activeRow = 11 →
        (checkRow lastRowDemoState).1.status = .lost) ∧
      (lastRowDemoState.activeRow < 11 →
        (checkRow lastRowDemoState).1.status = .inProgress ∧
        (checkRow lastRowDemoState).1.activeRow = lastRowDemoState.activeRow + 1 ∧
        (checkRow lastRowDemoState).1.activeCol = 0) :=
  loss_boundary lastRowDemoState (by decide) (by decide) (by decide)

/-- Claim C4: once the game has reached a terminal state (after `GameWon`
or `GameOver`, whose handlers disable input), `setDigit`,
`advanceCursorColumn` and `checkRow` are all no-ops — no cell, cursor,
feedback or status changes, and no events — until `reset` is called. -/
theorem terminal_lock (v : Nat) {s : GameState} (hr : Reachable s)
    (ht : s.status ≠ .inProgress) :
    setDigit v s = s ∧ advanceCursorColumn s = s ∧ checkRow s = (s, []) :=
  ⟨setDigit_terminal_noop v ht,
    advance_disabled_noop (reachable_inv hr ht),
    checkRow_terminal_noop ht⟩

theorem terminal_lock_witness :
    setDigit 5 wonDemoState = wonDemoState ∧
      advanceCursorColumn wonDemoState = wonDemoState ∧
      checkRow wonDemoState = (wonDemoState, []) :=
  terminal_lock 5 wonDemoState_reachable (by decide)

/-- Claim C5: invoking `checkRow` (`commitActiveRow`) while some cell of
the active row does not hold a valid digit is a no-op: the state is
unchanged and no event is published. -/
theorem incomplete_commit_noop (s : GameState) (h : rowComplete s = false) :
    checkRow s = (s, []) := by
  unfold checkRow
  split
  · next hcond => rw [h] at hcond; exact absurd hcond.2 (by simp)
  · rfl

theorem incomplete_commit_noop_witness :
    rowComplete (reset [1, 2, 3, 4]) = false ∧
      checkRow (reset [1, 2, 3, 4]) = (reset [1, 2, 3, 4], []) :=
  ⟨by decide, incomplete_commit_noop (reset [1, 2, 3, 4]) (by decide)⟩

/-- Claim C6: while input is enabled, `advanceCursorColumn` always yields a
column index in `[0, numCols)`, never changes the active row, and applying
it `numCols` times from column 0 returns the state (in particular the
cursor) to column 0 of the same active row. -/
theorem cursor_confinement (s : GameState) (h1 : s.inputEnabled = true)
    (h2 : s.activeCol = 0) :
    (∀ k, (advanceCursorColumn^[k] s).activeCol < numCols) ∧
      (∀ k, (advanceCursorColumn^[k] s).activeRow = s.activeRow) ∧
      advanceCursorColumn^[numCols] s = s := by
  refine ⟨?_, ?_, ?_⟩
  · intro k
    cases k with
    | zero => simpa [h2] using (by decide : (0 : Nat) < numCols)
    | succ n =>
      rw [advance_iterate h1 n]
      exact Nat.mod_lt _ (by decide)
  · intro k
    induction k with
    | zero => rfl
    | succ n ih => rw [Function.iterate_succ_apply', advance_activeRow, ih]
  · have h4 : numCols = 3 + 1 := rfl
    rw [h4, advance_iterate h1 3, h2]
    have h0 : (0 + (3 + 1)) % numCols = 0 := by decide
    rw [h0, ← h2]

theorem cursor_confinement_witness :
    (∀ k, (advanceCursorColumn^[k] (reset [1, 2, 3, 4])).activeCol < numCols) ∧
      (∀ k, (advanceCursorColumn^[k] (reset [1, 2, 3, 4])).activeRow =
        (reset [1, 2, 3, 4]).activeRow) ∧
      advanceCursorColumn^[numCols] (reset [1, 2, 3, 4]) = reset [1, 2, 3, 4] :=
  cursor_confinement (reset [1, 2, 3, 4]) (by decide) (by decide)

/-- Claim C7: `reset` succeeds from every state (it is a total function of
the freshly generated answer only), and afterwards the board is all-empty
with the full complement of rows, the cursor is `(0, 0)`, the status is
`InProgress` and input is enabled. -/
theorem reset_restores_invariants (ans : List Nat) :
    (∀ row ∈ (reset ans).board, ∀ cell ∈ row, cell = 0) ∧
      (reset ans).board.length = numRows ∧
      (reset ans).activeRow = 0 ∧ (reset ans).activeCol = 0 ∧
      (reset ans).status = .inProgress ∧ (reset ans).inputEnabled = true := by
  refine ⟨?_, by simp [reset], rfl, rfl, rfl, rfl⟩
  intro row hrow cell hcell
  have hr := List.eq_of_mem_replicate hrow
  subst hr
  exact List.eq_of_mem_replicate hcell

/-- Claim C8: committing a complete row that matches the answer exactly
publishes exactly `RowCommitted` followed by `GameWon`, in that order, and
nothing else. -/
theorem win_event_ordering (s : GameState) (hst : s.status = .inProgress)
    (hc : rowComplete s = true)
    (hmatch : activeRowCells s = s.answer)
    (hlen : s.answer.length = numCols) :
    (checkRow s).2 = [.rowCommitted s.activeRow numCols 0, .gameWon] := by
  have he : exactCount (activeRowCells s) s.answer = numCols := by
    rw [hmatch, exactCount_self, hlen]
  have hp : partCount (activeRowCells s) s.answer = 0 := by
    rw [hmatch, partCount_self]
  unfold checkRow
  rw [if_pos ⟨hst, hc⟩]
  simp only
  rw [if_pos he]
  rw [he, hp]

/-- A concrete in-progress state whose active row matches the answer. -/
def matchingRowDemoState : GameState :=
  { answer := [1, 2, 3, 4]
    board := [1, 2, 3, 4] :: List.replicate (numRows - 1) emptyRow
    feedbacks := List.replicate numRows none
    activeRow := 0
    activeCol := 0
    status := .inProgress
    inputEnabled := true }

theorem win_event_ordering_witness :
    (checkRow matchingRowDemoState).2 =
      [.rowCommitted matchingRowDemoState.activeRow numCols 0, .gameWon] :=
  win_event_ordering matchingRowDemoState (by decide) (by decide) (by decide) (by decide)

/-- Claim C9: every digit payload that the key bindings registered in
`App.register_events` can deliver to `logic.set_answer_digit` lies in the
valid range `[1, numDigits]`: only the keys 1..6 are bound, carrying the
digits 1..6. -/
theorem digit_bindings_in_range :
    ∀ d ∈ digitPayloads, 1 ≤ d ∧ d ≤ numDigits := by decide

theorem digit_bindings_in_range_witness :
    3 ∈ digitPayloads ∧ 1 ≤ 3 ∧ 3 ≤ numDigits :=
  ⟨by decide, digit_bindings_in_range 3 (by decide)⟩

/-- Claim C10: the game-state-mutating `KEYDOWN` registrations in
`App.register_events` carry pairwise distinct key conditions, so any single
key-down event triggers at most one game-mutating handler. -/
theorem mutating_key_conditions_distinct :
    mutatingKeys.Nodup ∧ ∀ k : Nat, mutatingKeys.count k ≤ 1 := by
  have hn : mutatingKeys.Nodup := by decide
  exact ⟨hn, fun k => List.nodup_iff_count_le_one.mp hn k⟩

end Mastermind
